import Mathlib

/-!
Verification of the tiled image-to-image invocation
(`invokeai/app/invocations/spandrel_image_to_image.py`).

The development shallowly embeds the data model and the algorithmic core of
`SpandrelImageToImageInvocation`: the `TBLR`/`Tile` records, `_scale_tile`,
the tile-list construction and its two stable sorts, the per-tile
clamp-and-quantize step, the stitch (slice assignment with half-overlap
trimming on the top/left edges), and the sequential processing loop with its
cancellation poll and error propagation.

Image buffers are modelled as total functions from (row, column, channel) to
sample values; the destination buffer starts as the all-zero function, matching
`torch.zeros`.  Floating-point tile values are modelled exactly over `ℚ`.
-/

/-- Pixel bounds record: top/bottom/left/right, with bottom and right exclusive.
Mirrors `invokeai.backend.tiles.utils.TBLR`. -/
structure TBLR where
  top : ℕ
  bottom : ℕ
  left : ℕ
  right : ℕ
deriving Repr, DecidableEq

/-- A tile: absolute pixel bounds plus per-edge overlap amounts.
Mirrors `invokeai.backend.tiles.utils.Tile`. -/
structure Tile where
  coords : TBLR
  overlap : TBLR
deriving Repr, DecidableEq

/-- Embedding of `SpandrelImageToImageInvocation._scale_tile`: every coordinate
and every overlap amount is multiplied by `scale`. -/
def scaleTile (tile : Tile) (scale : ℕ) : Tile :=
  Tile.mk
    (TBLR.mk (tile.coords.top * scale) (tile.coords.bottom * scale)
      (tile.coords.left * scale) (tile.coords.right * scale))
    (TBLR.mk (tile.overlap.top * scale) (tile.overlap.bottom * scale)
      (tile.overlap.left * scale) (tile.overlap.right * scale))

/-- Embedding of the tile-list computation in `invoke` (lines 61-78): when
`tile_size > 0` the TileGrid generator `calc_tiles_min_overlap` is called with
`min_overlap = 20`; otherwise a single tile covering the whole image with zero
overlap is used.  The generator itself lives outside this file's source, so it
is a parameter `gen` here; the claims about this branch hold for every `gen`. -/
def computeTiles (gen : ℕ → ℕ → ℕ → ℕ → ℕ → List Tile) (tileSize : ℤ)
    (height width : ℕ) : List Tile :=
  if 0 < tileSize then
    gen height width tileSize.toNat tileSize.toNat 20
  else
    [Tile.mk (TBLR.mk 0 height 0 width) (TBLR.mk 0 0 0 0)]

/-- Sort key of the first `sorted` call: `coords.left` ascending. -/
def leLeft (a b : Tile) : Bool :=
  decide (a.coords.left ≤ b.coords.left)

/-- Sort key of the second `sorted` call: `coords.top` ascending. -/
def leTop (a b : Tile) : Bool :=
  decide (a.coords.top ≤ b.coords.top)

/-- Embedding of the two stable sorts in `invoke` (lines 82-83): first by
`coords.left`, then by `coords.top`.  Python's `sorted` is a stable mergesort,
modelled by `List.mergeSort`. -/
def sortTiles (tiles : List Tile) : List Tile :=
  (tiles.mergeSort leLeft).mergeSort leTop

/-- A byte buffer: (row, column, channel) ↦ unsigned 8-bit sample value. -/
abbrev Buf : Type := ℕ → ℕ → ℕ → ℕ

/-- A floating-point tensor, modelled exactly over `ℚ`:
(row, column, channel) ↦ value. -/
abbrev TensorQ : Type := ℕ → ℕ → ℕ → ℚ

/-- Modelled from the spec: `SpandrelImageToImageModel.pil_to_tensor` is not
under `src/`; per the spec the transform consumes a floating-point buffer with
values in the `[0,1]` range, i.e. each byte `b` is mapped to `b / 255`. -/
def pilToTensor (img : Buf) : TensorQ :=
  fun r c ch => (img r c ch : ℚ) / 255

/-- Embedding of the per-tile output conversion (lines 125-126):
`output_tile.clamp(0, 1)` followed by `(output_tile * 255).to(torch.uint8)`.
The uint8 conversion truncates toward zero; on the clamped non-negative range
this is the floor. -/
def quantize (v : ℚ) : ℕ :=
  (Int.toNat ⌊(min (max v 0) 1) * 255⌋)

/-- Embedding of the input-tile extraction (lines 113-115): the sub-region of
the input tensor addressed by the tile's source-resolution coordinates. -/
def extractTile (imgT : TensorQ) (tile : Tile) : TensorQ :=
  fun r c ch => imgT (tile.coords.top + r) (tile.coords.left + c) ch

/-- The destination region written by the stitch for scaled tile `st`:
rows `[coords.top + overlap.top / 2, coords.bottom)` and columns
`[coords.left + overlap.left / 2, coords.right)`. -/
def InRegion (st : Tile) (r c : ℕ) : Prop :=
  st.coords.top + st.overlap.top / 2 ≤ r ∧ r < st.coords.bottom ∧
  st.coords.left + st.overlap.left / 2 ≤ c ∧ c < st.coords.right

instance (st : Tile) (r c : ℕ) : Decidable (InRegion st r c) :=
  inferInstanceAs (Decidable (_ ∧ _ ∧ _ ∧ _))

/-- Embedding of the stitch / merge step (lines 132-138):
`output_tensor[top + top_overlap : bottom, left + left_overlap : right, :] =
output_tile[top_overlap:, left_overlap:, :]` with
`top_overlap = scaled_tile.overlap.top // 2` and
`left_overlap = scaled_tile.overlap.left // 2`.  A destination position inside
the written region receives the tile sample at the corresponding local offset;
every other position keeps its previous value. -/
def stitchTile (outTile : Buf) (st : Tile) (dest : Buf) : Buf :=
  fun r c ch =>
    if InRegion st r c then
      outTile (r - st.coords.top) (c - st.coords.left) ch
    else
      dest r c ch

/-- Errors that can abort the processing loop: the cancellation exception
(`CanceledException`, line 110) or a failure raised by the transform. -/
inductive LoopErr (E : Type) : Type where
  | canceled : LoopErr E
  | modelErr : E → LoopErr E
deriving DecidableEq

/-- Embedding of the processing loop (lines 107-138).  `cancel i` is the value
the cancellation poll returns immediately before processing tile index `i`;
`run` is the transform capability (`spandrel_model.run`), which may fail.  The
result pairs the loop outcome with the number of transform invocations that
occurred. -/
def tileLoop {E : Type} (cancel : ℕ → Bool) (scale : ℕ)
    (run : TensorQ → Except E TensorQ) (imgT : TensorQ) :
    List Tile → ℕ → Buf → Except (LoopErr E) Buf × ℕ
  | [], _, dest => (Except.ok dest, 0)
  | tile :: rest, i, dest =>
    if cancel i then
      (Except.error LoopErr.canceled, 0)
    else
      match run (extractTile imgT tile) with
      | Except.error e => (Except.error (LoopErr.modelErr e), 1)
      | Except.ok outT =>
        let next := tileLoop cancel scale run imgT rest (i + 1)
          (stitchTile (fun r c ch => quantize (outT r c ch)) (scaleTile tile scale) dest)
        (next.1, next.2 + 1)

/-- The zero-initialized destination buffer (`torch.zeros`, lines 101-103). -/
def zeroBuf : Buf := fun _ _ _ => 0

/-- Shape of the allocated destination buffer (lines 100-103):
`(height * scale, width * scale, channels)`. -/
def outputShape (height width channels scale : ℕ) : ℕ × ℕ × ℕ :=
  (height * scale, width * scale, channels)

/-- Embedding of `invoke` end-to-end: compute and sort the tiles, run the
processing loop from the zero buffer, and only on full success hand the
stitched buffer to the image sink (`context.images.save`, lines 141-143).
`none` means no output image was produced. -/
def invokeModel {E : Type} (cancel : ℕ → Bool)
    (gen : ℕ → ℕ → ℕ → ℕ → ℕ → List Tile) (tileSize : ℤ) (scale : ℕ)
    (run : TensorQ → Except E TensorQ) (img : Buf) (height width : ℕ) :
    Option Buf :=
  match (tileLoop cancel scale run (pilToTensor img)
      (sortTiles (computeTiles gen tileSize height width)) 0 zeroBuf).1 with
  | Except.ok dest => some dest
  | Except.error _ => none

/-- The identity transform: `scale = 1`, passthrough. -/
def identityRun : TensorQ → Except Unit TensorQ :=
  fun t => Except.ok t

/-- One iteration of the loop body on the success path, as a fold step:
extract, transform with a total function `f`, quantize, stitch. -/
def stepRun (scale : ℕ) (f : TensorQ → TensorQ) (imgT : TensorQ)
    (dest : Buf) (tile : Tile) : Buf :=
  stitchTile (fun r c ch => quantize (f (extractTile imgT tile) r c ch))
    (scaleTile tile scale) dest

/-- The value the stitch of `tile` writes at destination position
`(r, c, ch)` when that position lies in the tile's written region. -/
def tileValue (scale : ℕ) (f : TensorQ → TensorQ) (imgT : TensorQ)
    (tile : Tile) (r c ch : ℕ) : ℕ :=
  quantize (f (extractTile imgT tile)
    (r - tile.coords.top * scale) (c - tile.coords.left * scale) ch)

/-- One axis segment of a grid tiling: interval `[t, b)` with `ov` the recorded
overlap shared with the previous segment and `ovb` the one shared with the
next.  A tiling satisfying the spec's covering and pairwise-overlap invariants
is a product of one valid segment list per axis. -/
structure Seg where
  t : ℕ
  b : ℕ
  ov : ℕ
  ovb : ℕ
deriving Repr, DecidableEq

/-- Chain conditions along one axis, starting from segment `s`: each next
segment starts no earlier than the previous, starts inside the previous
segment (covering, no gap), ends no earlier, is nonempty, and records as its
leading overlap exactly the amount it shares with the previous segment
(pairwise consistency).  The final segment ends at the axis length. -/
def axisOk : Seg → List Seg → ℕ → Prop
  | s, [], len => s.b = len
  | s, s2 :: rest, len =>
    s.t ≤ s2.t ∧ s2.t ≤ s.b ∧ s.b ≤ s2.b ∧ s2.ov = s.b - s2.t ∧
    s2.t < s2.b ∧ axisOk s2 rest len

/-- A valid axis decomposition of `[0, len)`: nonempty, starting at 0 with zero
leading overlap, chained by `axisOk`. -/
def ValidAxis : List Seg → ℕ → Prop
  | [], _ => False
  | s :: rest, len => s.t = 0 ∧ s.ov = 0 ∧ s.t < s.b ∧ axisOk s rest len

/-- The tile at the intersection of row segment `rs` and column segment `cs`. -/
def mkTile (rs cs : Seg) : Tile :=
  Tile.mk (TBLR.mk rs.t rs.b cs.t cs.b) (TBLR.mk rs.ov rs.ovb cs.ov cs.ovb)

/-- The grid tiling generated by a row decomposition and a column
decomposition. -/
def mkGridTiles (rows cols : List Seg) : List Tile :=
  rows.flatMap (fun rs => cols.map (fun cs => mkTile rs cs))

/-- Claim C4: `_scale_tile` returns a tile whose four `coords` fields and four
`overlap` fields are each the corresponding input field multiplied by the
scale, for every integer scale `s ≥ 1`; the function is pure (it builds a new
record and cannot modify its argument). -/
theorem scaleTile_multiplies_fields (tile : Tile) (s : ℕ) (_hs : 1 ≤ s) :
    scaleTile tile s =
      Tile.mk
        (TBLR.mk (tile.coords.top * s) (tile.coords.bottom * s)
          (tile.coords.left * s) (tile.coords.right * s))
        (TBLR.mk (tile.overlap.top * s) (tile.overlap.bottom * s)
          (tile.overlap.left * s) (tile.overlap.right * s)) :=
  rfl

theorem scaleTile_multiplies_fields_witness :
    scaleTile (Tile.mk (TBLR.mk 3 7 2 9) (TBLR.mk 4 6 8 10)) 2 =
      Tile.mk (TBLR.mk 6 14 4 18) (TBLR.mk 8 12 16 20) :=
  scaleTile_multiplies_fields (Tile.mk (TBLR.mk 3 7 2 9) (TBLR.mk 4 6 8 10)) 2
    (by decide)

/-- Claim C7: with tiling disabled (`tile_size ≤ 0`) the tile list is exactly
one tile spanning the whole image with all four overlaps zero, and the TileGrid
generator is not invoked — the result is the same for every generator `gen`. -/
theorem no_tiling_single_tile (gen : ℕ → ℕ → ℕ → ℕ → ℕ → List Tile)
    (tileSize : ℤ) (height width : ℕ) (hts : tileSize ≤ 0)
    (_hh : 0 < height) (_hw : 0 < width) :
    computeTiles gen tileSize height width =
      [Tile.mk (TBLR.mk 0 height 0 width) (TBLR.mk 0 0 0 0)] := by
  unfold computeTiles
  rw [if_neg (by omega)]

theorem no_tiling_single_tile_witness :
    computeTiles (fun _ _ _ _ _ => []) 0 5 7 =
      [Tile.mk (TBLR.mk 0 5 0 7) (TBLR.mk 0 0 0 0)] :=
  no_tiling_single_tile (fun _ _ _ _ _ => []) 0 5 7 (by decide) (by decide)
    (by decide)

/-- Claim C2: the stitch computes `top_trim = scaled_tile.overlap.top / 2` and
`left_trim = scaled_tile.overlap.left / 2` by integer division, writes rows
`[top_trim:]` and columns `[left_trim:]` of the transformed tile into the
destination at offset `(coords.top + top_trim, coords.left + left_trim)` — all
the way to `coords.bottom` and `coords.right`, so no bottom or right trimming
occurs — and leaves every destination position outside that region unchanged. -/
theorem stitch_trims_top_left_only (outT dest : Buf) (st : Tile) (ch : ℕ) :
    (∀ i j,
      st.coords.top + st.overlap.top / 2 + i < st.coords.bottom →
      st.coords.left + st.overlap.left / 2 + j < st.coords.right →
      stitchTile outT st dest (st.coords.top + st.overlap.top / 2 + i)
          (st.coords.left + st.overlap.left / 2 + j) ch =
        outT (st.overlap.top / 2 + i) (st.overlap.left / 2 + j) ch) ∧
    (∀ r c,
      (r < st.coords.top + st.overlap.top / 2 ∨ st.coords.bottom ≤ r ∨
       c < st.coords.left + st.overlap.left / 2 ∨ st.coords.right ≤ c) →
      stitchTile outT st dest r c ch = dest r c ch) := by
  constructor
  · intro i j hi hj
    unfold stitchTile
    rw [if_pos ⟨by omega, hi, by omega, hj⟩]
    congr 1 <;> omega
  · intro r c hout
    unfold stitchTile
    rw [if_neg]
    intro hin
    obtain ⟨h1, h2, h3, h4⟩ := hin
    rcases hout with h | h | h | h <;> omega

theorem stitch_trims_top_left_only_witness :
    stitchTile (fun r c _ => 100 * r + c) (Tile.mk (TBLR.mk 2 6 2 6) (TBLR.mk 2 0 2 0))
        (fun _ _ _ => 9) (2 + 2 / 2 + 2) (2 + 2 / 2 + 1) 0 =
      (fun r c _ => 100 * r + c) (2 / 2 + 2) (2 / 2 + 1) 0 :=
  (stitch_trims_top_left_only (fun r c _ => 100 * r + c)
      (fun _ _ _ => 9) (Tile.mk (TBLR.mk 2 6 2 6) (TBLR.mk 2 0 2 0)) 0).1 2 1
    (by decide) (by decide)

/-- Claim C9: the quantization step stores `floor(clamp(v, 0, 1) * 255)`:
truncation toward zero (equal to the floor on the clamped non-negative range),
so `v = 1` maps to 255 while a value just below a step boundary, e.g. with
`v * 255 = 254.99`, maps to the lower byte 254; in general for `0 ≤ v ≤ 1` the
stored byte is `⌊v * 255⌋`. -/
theorem quantize_truncates :
    quantize 1 = 255 ∧ quantize (25499 / 25500) = 254 ∧
    ∀ v : ℚ, 0 ≤ v → v ≤ 1 → (quantize v : ℤ) = ⌊v * 255⌋ := by
  refine ⟨?_, ?_, ?_⟩
  · unfold quantize
    norm_num
    decide
  · unfold quantize
    norm_num
    decide
  · intro v h0 h1
    unfold quantize
    rw [max_eq_left h0, min_eq_left h1]
    rw [Int.toNat_of_nonneg]
    exact Int.le_floor.mpr (by positivity)

theorem quantize_truncates_witness :
    ((quantize (1 / 2) : ℤ) = ⌊(1 / 2 : ℚ) * 255⌋) :=
  quantize_truncates.2.2 (1 / 2) (by norm_num) (by norm_num)

/-- With the cancellation signal never asserted and an always-succeeding
transform `f`, the processing loop succeeds, performs one transform invocation
per tile, and its destination buffer is the left fold of the per-tile
extract-transform-quantize-stitch step. -/
theorem tileLoop_nocancel {E : Type} (scale : ℕ) (f : TensorQ → TensorQ)
    (imgT : TensorQ) :
    ∀ (tiles : List Tile) (i : ℕ) (dest : Buf),
      tileLoop (E := E) (fun _ => false) scale (fun t => Except.ok (f t)) imgT
          tiles i dest =
        (Except.ok (tiles.foldl (stepRun scale f imgT) dest), tiles.length) := by
  intro tiles
  induction tiles with
  | nil => intro i dest; rfl
  | cons t ts ih =>
    intro i dest
    simp only [tileLoop, Bool.false_eq_true, if_false, List.foldl_cons,
      List.length_cons, ih]
    rfl

/-- If the cancellation signal first becomes true at global tile index `k`,
the loop started at index `i ≤ k` over a list long enough to reach index `k`
aborts with the cancellation error after exactly `k - i` transform
invocations. -/
theorem tileLoop_cancel_at {E : Type} (scale : ℕ) (f : TensorQ → TensorQ)
    (imgT : TensorQ) :
    ∀ (tiles : List Tile) (i k : ℕ) (dest : Buf), i ≤ k → k < i + tiles.length →
      tileLoop (E := E) (fun j => decide (k ≤ j)) scale
          (fun t => Except.ok (f t)) imgT tiles i dest =
        (Except.error LoopErr.canceled, k - i) := by
  intro tiles
  induction tiles with
  | nil =>
    intro i k dest h1 h2
    exact absurd h2 (by simp; omega)
  | cons t ts ih =>
    intro i k dest h1 h2
    by_cases hki : k ≤ i
    · have hik : i = k := le_antisymm h1 hki
      subst hik
      simp [tileLoop]
    · simp only [tileLoop, decide_eq_true_eq, if_neg hki]
      rw [ih (i + 1) k _ (by omega) (by simp at h2 ⊢; omega)]
      simp
      omega

/-- Claim C5: if the cancellation signal is asserted immediately before
processing tile index `k` (0-indexed in traversal order, `k > 0`), the loop
aborts with the cancellation exception after exactly `k` transform
invocations, no further tiles are processed, and the invocation returns no
output buffer to the caller. -/
theorem cancellation_aborts_after_k (f : TensorQ → TensorQ) (scale : ℕ)
    (imgT : TensorQ) (tiles : List Tile) (dest : Buf) (k : ℕ)
    (hk0 : 0 < k) (hk : k < tiles.length) :
    tileLoop (E := Unit) (fun j => decide (k ≤ j)) scale
        (fun t => Except.ok (f t)) imgT tiles 0 dest =
      (Except.error LoopErr.canceled, k) ∧
    ∀ (gen : ℕ → ℕ → ℕ → ℕ → ℕ → List Tile) (tileSize : ℤ) (img : Buf)
      (height width : ℕ),
      k < (sortTiles (computeTiles gen tileSize height width)).length →
      invokeModel (E := Unit) (fun j => decide (k ≤ j)) gen tileSize scale
          (fun t => Except.ok (f t)) img height width = none := by
  constructor
  · simpa using tileLoop_cancel_at scale f imgT tiles 0 k dest (by omega)
      (by omega)
  · intro gen tileSize img height width hlen
    unfold invokeModel
    rw [tileLoop_cancel_at scale f (pilToTensor img) _ 0 k zeroBuf (by omega)
      (by omega)]

theorem cancellation_aborts_after_k_witness :
    tileLoop (E := Unit) (fun j => decide (1 ≤ j)) 2 (fun t => Except.ok t)
        (fun _ _ _ => 0)
        [Tile.mk (TBLR.mk 0 2 0 2) (TBLR.mk 0 0 0 0),
         Tile.mk (TBLR.mk 2 4 0 2) (TBLR.mk 0 0 0 0)] 0 zeroBuf =
      (Except.error LoopErr.canceled, 1) :=
  (cancellation_aborts_after_k (fun t => t) 2 (fun _ _ _ => 0)
    [Tile.mk (TBLR.mk 0 2 0 2) (TBLR.mk 0 0 0 0),
     Tile.mk (TBLR.mk 2 4 0 2) (TBLR.mk 0 0 0 0)] zeroBuf 1
    (by decide) (by decide)).1

/-- If the transform fails on some tile of the list (and cancellation is never
asserted), the loop result is the propagated transform failure. -/
theorem tileLoop_error_of_mem {E : Type} (scale : ℕ)
    (run : TensorQ → Except E TensorQ) (imgT : TensorQ) :
    ∀ (tiles : List Tile) (i : ℕ) (dest : Buf),
      (∃ t ∈ tiles, ∃ e, run (extractTile imgT t) = Except.error e) →
      ∃ e, (tileLoop (fun _ => false) scale run imgT tiles i dest).1 =
        Except.error (LoopErr.modelErr e) := by
  intro tiles
  induction tiles with
  | nil =>
    rintro i dest ⟨t, ht, -⟩
    exact absurd ht (List.not_mem_nil t)
  | cons t ts ih =>
    rintro i dest ⟨t2, ht2, e, he⟩
    simp only [tileLoop, Bool.false_eq_true, if_false]
    cases hrun : run (extractTile imgT t) with
    | error e2 => exact ⟨e2, by simp [hrun]⟩
    | ok outT =>
      rcases List.mem_cons.mp ht2 with rfl | hmem
      · rw [hrun] at he
        exact absurd he (by simp)
      · obtain ⟨e3, he3⟩ := ih (i + 1)
          (stitchTile (fun r c ch => quantize (outT r c ch))
            (scaleTile t scale) dest) ⟨t2, hmem, e, he⟩
        exact ⟨e3, by simp [hrun]; exact he3⟩

/-- Claim C6: a failure raised by the transform capability on any tile
propagates out of the loop unhandled (as a `modelErr`), and the invocation
produces no output: the stitched buffer is handed to the image sink only when
the loop over all tiles completes successfully, so a partially stitched buffer
is never persisted. -/
theorem transform_failure_no_output {E : Type} (scale : ℕ)
    (run : TensorQ → Except E TensorQ) :
    (∀ (imgT : TensorQ) (tiles : List Tile) (i : ℕ) (dest : Buf),
      (∃ t ∈ tiles, ∃ e, run (extractTile imgT t) = Except.error e) →
      ∃ e, (tileLoop (fun _ => false) scale run imgT tiles i dest).1 =
        Except.error (LoopErr.modelErr e)) ∧
    ∀ (gen : ℕ → ℕ → ℕ → ℕ → ℕ → List Tile) (tileSize : ℤ) (img : Buf)
      (height width : ℕ),
      (∃ t ∈ sortTiles (computeTiles gen tileSize height width),
        ∃ e, run (extractTile (pilToTensor img) t) = Except.error e) →
      invokeModel (fun _ => false) gen tileSize scale run img height width =
        none := by
  constructor
  · exact tileLoop_error_of_mem scale run
  · intro gen tileSize img height width hex
    obtain ⟨e, he⟩ := tileLoop_error_of_mem scale run (pilToTensor img) _ 0
      zeroBuf hex
    unfold invokeModel
    rw [he]

theorem transform_failure_no_output_witness :
    invokeModel (E := Unit) (fun _ => false) (fun _ _ _ _ _ => []) 0 3
        (fun _ => Except.error ()) (fun _ _ _ => 0) 4 6 = none :=
  (transform_failure_no_output 3 (fun _ => Except.error ())).2
    (fun _ _ _ _ _ => []) 0 (fun _ _ _ => 0) 4 6
    ⟨Tile.mk (TBLR.mk 0 4 0 6) (TBLR.mk 0 0 0 0),
      by simp [sortTiles, computeTiles], (), rfl⟩

/-- Quantization inverts the byte-to-float conversion: for a byte `n ≤ 255`,
clamping and quantizing `n / 255` gives back `n`. -/
theorem quantize_div255 (n : ℕ) (h : n ≤ 255) : quantize ((n : ℚ) / 255) = n := by
  have h0 : (0 : ℚ) ≤ (n : ℚ) / 255 := by positivity
  have h1 : (n : ℚ) / 255 ≤ 1 := by
    rw [div_le_one (by norm_num)]
    exact_mod_cast h
  unfold quantize
  rw [max_eq_left h0, min_eq_left h1, div_mul_cancel₀ _ (by norm_num : (255 : ℚ) ≠ 0)]
  rw [Int.floor_natCast]
  exact Int.toNat_natCast n

theorem quantize_div255_witness : quantize ((200 : ℕ) / 255 : ℚ) = 200 :=
  quantize_div255 200 (by decide)

/-- Last-write characterization of the stitched fold: at any destination
position, either no processed tile's region contains the position and the
buffer still holds its initial value, or some processed tile's region contains
it and the buffer holds the value that tile's stitch wrote. -/
theorem foldl_stepRun_char (scale : ℕ) (f : TensorQ → TensorQ) (imgT : TensorQ) :
    ∀ (tiles : List Tile) (dest : Buf) (r c ch : ℕ),
      ((∀ t ∈ tiles, ¬ InRegion (scaleTile t scale) r c) ∧
        tiles.foldl (stepRun scale f imgT) dest r c ch = dest r c ch) ∨
      (∃ t ∈ tiles, InRegion (scaleTile t scale) r c ∧
        tiles.foldl (stepRun scale f imgT) dest r c ch =
          tileValue scale f imgT t r c ch) := by
  intro tiles
  induction tiles with
  | nil =>
    intro dest r c ch
    exact Or.inl ⟨by simp, rfl⟩
  | cons t ts ih =>
    intro dest r c ch
    rw [List.foldl_cons]
    rcases ih (stepRun scale f imgT dest t) r c ch with ⟨hnone, heq⟩ | ⟨t2, hmem, hin, hval⟩
    · by_cases hin : InRegion (scaleTile t scale) r c
      · refine Or.inr ⟨t, List.mem_cons_self t ts, hin, ?_⟩
        rw [heq]
        unfold stepRun stitchTile tileValue
        rw [if_pos hin]
        rfl
      · refine Or.inl ⟨?_, ?_⟩
        · intro t2 ht2
          rcases List.mem_cons.mp ht2 with rfl | hm
          · exact hin
          · exact hnone t2 hm
        · rw [heq]
          unfold stepRun stitchTile
          rw [if_neg hin]
    · exact Or.inr ⟨t2, List.mem_cons_of_mem t hmem, hin, hval⟩

/-- Scaled 1-D coverage along the chain: any coordinate at or beyond the end of
the current segment and below the scaled axis length is inside the trimmed
written range of a later segment. -/
theorem axisOk_cover (scale : ℕ) :
    ∀ (rest : List Seg) (s : Seg) (len : ℕ), axisOk s rest len →
      ∀ x, s.b * scale ≤ x → x < len * scale →
        ∃ s2 ∈ rest, s2.t * scale + s2.ov * scale / 2 ≤ x ∧ x < s2.b * scale := by
  intro rest
  induction rest with
  | nil =>
    intro s len hok x hx hlen
    rw [show s.b = len from hok] at hx
    omega
  | cons s2 rest ih =>
    intro s len hok x hx hlen
    obtain ⟨h1, h2, h3, h4, h5, h6⟩ := hok
    by_cases hxb : x < s2.b * scale
    · refine ⟨s2, List.mem_cons_self s2 rest, ?_, hxb⟩
      have hts : s2.t * scale ≤ s.b * scale := Nat.mul_le_mul_right scale h2
      have hsum : s2.t * scale + s2.ov * scale = s.b * scale := by
        rw [← Nat.add_mul]
        congr 1
        omega
      omega
    · obtain ⟨s3, hmem, hs3⟩ := ih s2 len h6 x (by omega) hlen
      exact ⟨s3, List.mem_cons_of_mem s2 hmem, hs3⟩

/-- Scaled 1-D coverage: a valid axis decomposition of `[0, len)`, projected
through an integer scale, covers every coordinate of `[0, len * scale)` with
the trimmed ranges `[t * scale + ov * scale / 2, b * scale)`. -/
theorem axis_cover (scale : ℕ) (segs : List Seg) (len : ℕ)
    (h : ValidAxis segs len) :
    ∀ x, x < len * scale →
      ∃ s ∈ segs, s.t * scale + s.ov * scale / 2 ≤ x ∧ x < s.b * scale := by
  match segs with
  | [] => exact absurd h (by simp [ValidAxis])
  | s :: rest =>
    obtain ⟨ht, hov, htb, hok⟩ := h
    intro x hx
    by_cases hxb : x < s.b * scale
    · exact ⟨s, List.mem_cons_self s rest, by simp [ht, hov], hxb⟩
    · obtain ⟨s2, hmem, hs2⟩ := axisOk_cover scale rest s len hok x (by omega) hx
      exact ⟨s2, List.mem_cons_of_mem s hmem, hs2⟩

/-- Every destination position of the scaled image lies in the written region
of some tile of the (sorted) grid tiling. -/
theorem grid_covers (scale : ℕ) (rows cols : List Seg) (height width : ℕ)
    (hr : ValidAxis rows height) (hc : ValidAxis cols width)
    (r c : ℕ) (hrb : r < height * scale) (hcb : c < width * scale) :
    ∃ t ∈ sortTiles (mkGridTiles rows cols), InRegion (scaleTile t scale) r c := by
  obtain ⟨rs, hrmem, hr1, hr2⟩ := axis_cover scale rows height hr r hrb
  obtain ⟨cs, hcmem, hc1, hc2⟩ := axis_cover scale cols width hc c hcb
  refine ⟨mkTile rs cs, ?_, ?_⟩
  · have hmem : mkTile rs cs ∈ mkGridTiles rows cols := by
      unfold mkGridTiles
      rw [List.mem_flatMap]
      exact ⟨rs, hrmem, List.mem_map_of_mem _ hcmem⟩
    have hperm : List.Perm (sortTiles (mkGridTiles rows cols)) (mkGridTiles rows cols) :=
      (List.mergeSort_perm _ leTop).trans (List.mergeSort_perm _ leLeft)
    exact hperm.mem_iff.mpr hmem
  · simp only [InRegion, scaleTile, mkTile]
    exact ⟨hr1, hr2, hc1, hc2⟩

/-- Claim C1: over any tiling satisfying the covering and pairwise-overlap
invariants (a grid of valid axis decompositions), processed in the sorted
traversal order, the loop with the identity transform (`scale = 1`,
passthrough) succeeds and produces a destination buffer equal to the input
buffer byte-for-byte on the whole image: no sample is dropped and no
destination element holds a value from no tile. -/
theorem identity_transform_roundtrip (rows cols : List Seg)
    (height width : ℕ) (img : Buf) (hr : ValidAxis rows height)
    (hc : ValidAxis cols width) (hbytes : ∀ r c ch, img r c ch ≤ 255) :
    ∃ dest,
      tileLoop (fun _ => false) 1 identityRun (pilToTensor img)
          (sortTiles (mkGridTiles rows cols)) 0 zeroBuf =
        (Except.ok dest, (sortTiles (mkGridTiles rows cols)).length) ∧
      ∀ r, r < height → ∀ c, c < width → ∀ ch, dest r c ch = img r c ch := by
  refine ⟨(sortTiles (mkGridTiles rows cols)).foldl
    (stepRun 1 (fun t => t) (pilToTensor img)) zeroBuf, ?_, ?_⟩
  · exact tileLoop_nocancel 1 (fun t => t) (pilToTensor img) _ 0 zeroBuf
  · intro r hrb c hcb ch
    rcases foldl_stepRun_char 1 (fun t => t) (pilToTensor img)
        (sortTiles (mkGridTiles rows cols)) zeroBuf r c ch with
      ⟨hnone, -⟩ | ⟨t, hmem, hin, hval⟩
    · obtain ⟨t, hmem, hin⟩ := grid_covers 1 rows cols height width hr hc r c
        (by omega) (by omega)
      exact absurd hin (hnone t hmem)
    · rw [hval]
      simp only [InRegion, scaleTile, mul_one] at hin
      obtain ⟨h1, h2, h3, h4⟩ := hin
      have htr : t.coords.top ≤ r := le_trans (Nat.le_add_right _ _) h1
      have hcl : t.coords.left ≤ c := le_trans (Nat.le_add_right _ _) h3
      unfold tileValue extractTile
      simp only [mul_one]
      rw [Nat.add_sub_cancel' htr, Nat.add_sub_cancel' hcl]
      exact quantize_div255 _ (hbytes r c ch)

theorem identity_transform_roundtrip_witness :
    ∃ dest,
      tileLoop (fun _ => false) 1 identityRun
          (pilToTensor (fun _ _ _ => 7))
          (sortTiles (mkGridTiles [Seg.mk 0 2 0 0] [Seg.mk 0 2 0 0])) 0
          zeroBuf =
        (Except.ok dest,
          (sortTiles (mkGridTiles [Seg.mk 0 2 0 0] [Seg.mk 0 2 0 0])).length) ∧
      ∀ r, r < 2 → ∀ c, c < 2 → ∀ ch, dest r c ch = (fun _ _ _ => 7) r c ch :=
  identity_transform_roundtrip [Seg.mk 0 2 0 0] [Seg.mk 0 2 0 0] 2 2
    (fun _ _ _ => 7) ⟨rfl, rfl, by decide, rfl⟩ ⟨rfl, rfl, by decide, rfl⟩
    (by intro r c ch; show (7 : ℕ) ≤ 255; decide)

/-- Claim C8: the destination buffer is allocated with shape exactly
`(height * scale, width * scale, channels)`, and after the loop over a tiling
satisfying the covering invariant every element of the destination buffer lies
in the written region of some tile and holds the value that tile's stitch
wrote — no residual zero-initialized region remains. -/
theorem output_buffer_shape_and_coverage (rows cols : List Seg)
    (height width channels scale : ℕ) (hr : ValidAxis rows height)
    (hc : ValidAxis cols width) :
    outputShape height width channels scale =
      (height * scale, width * scale, channels) ∧
    (∀ r, r < height * scale → ∀ c, c < width * scale →
      ∃ t ∈ sortTiles (mkGridTiles rows cols),
        InRegion (scaleTile t scale) r c) ∧
    ∀ (f : TensorQ → TensorQ) (imgT : TensorQ) (r c ch : ℕ),
      r < height * scale → c < width * scale →
      ∃ dest,
        tileLoop (E := Unit) (fun _ => false) scale
            (fun t => Except.ok (f t)) imgT
            (sortTiles (mkGridTiles rows cols)) 0 zeroBuf =
          (Except.ok dest, (sortTiles (mkGridTiles rows cols)).length) ∧
        ∃ t ∈ sortTiles (mkGridTiles rows cols),
          InRegion (scaleTile t scale) r c ∧
          dest r c ch = tileValue scale f imgT t r c ch := by
  refine ⟨rfl, ?_, ?_⟩
  · intro r hrb c hcb
    exact grid_covers scale rows cols height width hr hc r c hrb hcb
  · intro f imgT r c ch hrb hcb
    refine ⟨_, tileLoop_nocancel scale f imgT _ 0 zeroBuf, ?_⟩
    rcases foldl_stepRun_char scale f imgT (sortTiles (mkGridTiles rows cols))
        zeroBuf r c ch with ⟨hnone, -⟩ | ⟨t, hmem, hin, hval⟩
    · obtain ⟨t, hmem, hin⟩ :=
        grid_covers scale rows cols height width hr hc r c hrb hcb
      exact absurd hin (hnone t hmem)
    · exact ⟨t, hmem, hin, hval⟩

theorem output_buffer_shape_and_coverage_witness :
    outputShape 1 1 3 2 = (1 * 2, 1 * 2, 3) ∧
    (∀ r, r < 1 * 2 → ∀ c, c < 1 * 2 →
      ∃ t ∈ sortTiles (mkGridTiles [Seg.mk 0 1 0 0] [Seg.mk 0 1 0 0]),
        InRegion (scaleTile t 2) r c) ∧
    ∀ (f : TensorQ → TensorQ) (imgT : TensorQ) (r c ch : ℕ),
      r < 1 * 2 → c < 1 * 2 →
      ∃ dest,
        tileLoop (E := Unit) (fun _ => false) 2 (fun t => Except.ok (f t))
            imgT (sortTiles (mkGridTiles [Seg.mk 0 1 0 0] [Seg.mk 0 1 0 0])) 0
            zeroBuf =
          (Except.ok dest,
            (sortTiles (mkGridTiles [Seg.mk 0 1 0 0] [Seg.mk 0 1 0 0])).length) ∧
        ∃ t ∈ sortTiles (mkGridTiles [Seg.mk 0 1 0 0] [Seg.mk 0 1 0 0]),
          InRegion (scaleTile t 2) r c ∧
          dest r c ch = tileValue 2 f imgT t r c ch :=
  output_buffer_shape_and_coverage [Seg.mk 0 1 0 0] [Seg.mk 0 1 0 0] 1 1 3 2
    ⟨rfl, rfl, by decide, rfl⟩ ⟨rfl, rfl, by decide, rfl⟩

/-- Transitivity of the `coords.top` comparison. -/
theorem leTop_trans : ∀ a b c : Tile, leTop a b → leTop b c → leTop a c := by
  intro a b c
  simp only [leTop, decide_eq_true_eq]
  omega

/-- Totality of the `coords.top` comparison. -/
theorem leTop_total : ∀ a b : Tile, leTop a b || leTop b a := by
  intro a b
  simp only [leTop]
  rcases Nat.le_total a.coords.top b.coords.top with h | h <;> simp [h]

/-- Transitivity of the `coords.left` comparison. -/
theorem leLeft_trans : ∀ a b c : Tile, leLeft a b → leLeft b c → leLeft a c := by
  intro a b c
  simp only [leLeft, decide_eq_true_eq]
  omega

/-- Totality of the `coords.left` comparison. -/
theorem leLeft_total : ∀ a b : Tile, leLeft a b || leLeft b a := by
  intro a b
  simp only [leLeft]
  rcases Nat.le_total a.coords.left b.coords.left with h | h <;> simp [h]

/-- Elimination form of the enumerated comparison used to state stability:
a pair related by `enumLE leTop` has strictly smaller top, or equal tops and
index order preserved. -/
theorem enumLE_leTop_elim {x y : ℕ × Tile} (h : List.enumLE leTop x y = true) :
    x.2.coords.top < y.2.coords.top ∨
    (x.2.coords.top = y.2.coords.top ∧ x.1 ≤ y.1) := by
  unfold List.enumLE leTop at h
  simp only [decide_eq_true_eq] at h
  by_cases h1 : x.2.coords.top ≤ y.2.coords.top
  · by_cases h2 : y.2.coords.top ≤ x.2.coords.top
    · rw [if_pos h1, if_pos h2] at h
      exact Or.inr ⟨by omega, by simpa using h⟩
    · exact Or.inl (by omega)
  · rw [if_neg h1] at h
    exact absurd h (by simp)

/-- Claim C3: the ordering step — a stable sort by `coords.left` followed by a
stable sort by `coords.top` — produces a permutation of the tile list in which
`coords.top` is non-decreasing and, among tiles with equal `coords.top`,
`coords.left` is non-decreasing (row-major top-to-bottom, left-to-right
traversal). -/
theorem sortTiles_rowMajor (tiles : List Tile) :
    List.Perm (sortTiles tiles) tiles ∧
    (sortTiles tiles).Pairwise (fun a b =>
      a.coords.top < b.coords.top ∨
      (a.coords.top = b.coords.top ∧ a.coords.left ≤ b.coords.left)) := by
  constructor
  · exact (List.mergeSort_perm _ leTop).trans (List.mergeSort_perm tiles leLeft)
  · have hsortedL : (tiles.mergeSort leLeft).Pairwise (fun a b => leLeft a b) :=
      List.sorted_mergeSort leLeft_trans leLeft_total tiles
    show ((tiles.mergeSort leLeft).mergeSort leTop).Pairwise _
    rw [← List.mergeSort_enum, List.pairwise_map]
    have hE : ((tiles.mergeSort leLeft).enum.mergeSort
        (List.enumLE leTop)).Pairwise (fun x y => List.enumLE leTop x y) :=
      List.sorted_mergeSort (List.enumLE_trans leTop_trans)
        (List.enumLE_total leTop_total) _
    rw [List.pairwise_iff_forall_sublist]
    intro x y hsub
    have hle : List.enumLE leTop x y :=
      List.pairwise_iff_forall_sublist.mp hE hsub
    have hxmem : x ∈ (tiles.mergeSort leLeft).enum :=
      List.mem_mergeSort.mp (hsub.subset (by simp))
    have hymem : y ∈ (tiles.mergeSort leLeft).enum :=
      List.mem_mergeSort.mp (hsub.subset (by simp))
    rw [List.mem_enum_iff_getElem?] at hxmem hymem
    obtain ⟨hxlt, hxe⟩ := List.getElem?_eq_some_iff.mp hxmem
    obtain ⟨hylt, hye⟩ := List.getElem?_eq_some_iff.mp hymem
    rcases enumLE_leTop_elim hle with hlt | ⟨heq, hidx⟩
    · exact Or.inl hlt
    · refine Or.inr ⟨heq, ?_⟩
      rcases Nat.eq_or_lt_of_le hidx with heqi | hlti
      · have hxy2 : x.2 = y.2 := by
          rw [← hxe, ← hye]
          congr 1
        rw [hxy2]
      · have hpw := List.pairwise_iff_getElem.mp hsortedL x.1 y.1 hxlt hylt hlti
        rw [hxe, hye] at hpw
        simpa [leLeft] using hpw

/-- A PIL image as delivered by the image source: spatial size, channel count,
and sample data. -/
structure PILImage where
  height : ℕ
  width : ℕ
  channels : ℕ
  data : Buf

/-- Modelled from the spec: `context.images.get_pil(self.image.image_name,
mode="RGB")` (lines 56-58) — the image source is an external collaborator not
under `src/`; the call site requests mode `"RGB"`, so the loaded image is
converted to 3-channel RGB before any tiling or processing, discarding any
alpha channel the source image carried. -/
def getPilRGB (img : PILImage) : PILImage :=
  PILImage.mk img.height img.width 3
    (fun r c ch => if ch < 3 then img.data r c ch else 0)

/-- Claim C10: the loaded image is converted to 3-channel RGB before any
tiling or processing: whatever the source image's channel count, the loaded
image has exactly 3 channels, the destination buffer allocated from it has
channel dimension 3, and no alpha data survives the conversion — so the saved
output never carries alpha. -/
theorem rgb_conversion_three_channels (img : PILImage) (scale : ℕ) :
    (getPilRGB img).channels = 3 ∧
    (outputShape (getPilRGB img).height (getPilRGB img).width
      (getPilRGB img).channels scale).2.2 = 3 ∧
    ∀ r c ch, 3 ≤ ch → (getPilRGB img).data r c ch = 0 := by
  refine ⟨rfl, rfl, ?_⟩
  intro r c ch h
  unfold getPilRGB
  simp only
  rw [if_neg (by omega)]

theorem rgb_conversion_three_channels_witness :
    (getPilRGB (PILImage.mk 4 4 4 (fun _ _ _ => 9))).data 0 0 3 = 0 :=
  (rgb_conversion_three_channels (PILImage.mk 4 4 4 (fun _ _ _ => 9)) 2).2.2
    0 0 3 (by decide)
